import Mathlib

/-!
# Verification of the `code_agent` repository-ingestion pipeline

Shallow embedding of `src/code_agent/github_analyze.py` (class
`GitHubAnalyzer`).  Filesystem paths are modelled as lists of path
components; the filesystem, the external `git`/`code2prompt` tools and
per-file read outcomes are modelled by explicit oracle values, so every
operation is a pure Lean function mirroring the Python control flow.
-/

namespace CodeAgent

/-- A filesystem path, as its list of components (Python `pathlib.Path.parts`,
without the root anchor). -/
abbrev FsPath := List String

/-- `Path.name`: the final path component (empty for the empty path). -/
def pathName (p : FsPath) : String := p.getLastD ""

/-- Python `str.endswith(suffix)` on the character sequence of the string. -/
def endswith (s suffix : String) : Bool := suffix.toList.isSuffixOf s.toList

/-- Python `sub in s`: substring containment, on character lists. -/
def strContainsAux (needle : List Char) : List Char → Bool
  | [] => needle.isEmpty
  | c :: cs => needle.isPrefixOf (c :: cs) || strContainsAux needle cs

/-- Python `sub in s` for strings. -/
def strContains (s sub : String) : Bool := strContainsAux sub.toList s.toList

/-- `Path.relative_to`: strip `base` from the front of `p`; `none` models the
`ValueError` raised when `base` is not a prefix of `p`. -/
def relative_to (p base : FsPath) : Option FsPath :=
  if base.isPrefixOf p then some (p.drop base.length) else none

/-- `str()` of a relative path: components joined with `/`. -/
def renderPath (p : FsPath) : String := String.intercalate "/" p

/-! ## `find_files` (github_analyze.py lines 49–91)

The classifier walks `path.rglob('*')` and buckets each regular file by
filename.  We embed the classification over the list of workspace-relative
paths of the regular files the walk yields, in traversal order. -/

/-- `doc_patterns` (line 60). -/
def doc_patterns : List String :=
  [".md", ".rst", ".txt", "LICENSE", "CONTRIBUTING", "CODE_OF_CONDUCT"]

/-- `code_patterns` (line 62). -/
def code_patterns : List String :=
  [".py", ".js", ".java", ".cpp", ".go", ".rs", ".swift", ".kt", ".cs", ".toml"]

/-- `binary_patterns` (line 64). -/
def binary_patterns : List String :=
  [".pdf", ".png", ".jpg", ".jpeg", ".gif", ".zip", ".tar", ".gz"]

/-- Line 70: `any(file_path.name.endswith(ext) for ext in binary_patterns)`. -/
def isBinaryName (n : String) : Bool := binary_patterns.any (fun ext => endswith n ext)

/-- Line 80: `any(file_path.name.endswith(ext) for ext in code_patterns)`. -/
def isCodeName (n : String) : Bool := code_patterns.any (fun ext => endswith n ext)

/-- Lines 83–84: `any(file_path.name.endswith(ext) or file_path.name == name
for ext in doc_patterns for name in doc_patterns)` — note the double loop over
the same set, so the suffix test is applied to every member of `doc_patterns`.  -/
def isDocName (n : String) : Bool :=
  doc_patterns.any (fun ext => doc_patterns.any (fun nm => endswith n ext || n == nm))

/-- One step of the classification loop body (lines 68–86): the binary test
runs first (`continue`), then the code test, then the doc test; the recorded
path is `Path(self.temp_dir) / relative_path`. -/
def classifyStep (temp_dir : FsPath) (acc : List FsPath × List FsPath)
    (rel : FsPath) : List FsPath × List FsPath :=
  let n := pathName rel
  if isBinaryName n then acc
  else if isCodeName n then (acc.1 ++ [temp_dir ++ rel], acc.2)
  else if isDocName n then (acc.1, acc.2 ++ [temp_dir ++ rel])
  else acc

/-- `find_files` (lines 49–91) over the workspace-relative paths of the
regular files that `rglob` yields.  Returns `(code_files, doc_files)`. -/
def find_files (temp_dir : FsPath) (entries : List FsPath) :
    List FsPath × List FsPath :=
  entries.foldl (classifyStep temp_dir) ([], [])

/-! ## `generate_file_prompts` (github_analyze.py lines 93–162)

For each file the method shells out to `code2prompt` and falls back to a raw
UTF-8 read.  The outcome of the external tool run and of the raw read are
oracle values attached to each input file. -/

/-- Outcome of `subprocess.run(['code2prompt', ...], check=True)` for one file:
the executable is missing (`FileNotFoundError`), the run raises with message
`str(e)` (e.g. `CalledProcessError` on non-zero exit) while possibly having
written the output file, or it succeeds with captured stdout and, when the
tool wrote the output file, that file's content. -/
inductive ToolResult where
  | notFound
  | failed (msg : String) (wroteOutput : Bool)
  | success (stdout : String) (outFileContent : Option String)
  deriving DecidableEq, Repr

/-- Outcome of `open(file_path, 'r', encoding='utf-8').read()`: the decoded
text, a `UnicodeDecodeError`, or any other exception with message `str(e)`
(e.g. `PermissionError`). -/
inductive ReadResult where
  | ok (content : String)
  | decodeError
  | otherError (msg : String)
  deriving DecidableEq, Repr

/-- The per-file oracle: what the external tool does for this file, what
reading the file raw yields (consulted only on the tool-not-found path), and
whether the `finally`-block `output_file.unlink()` raises — a failure the
`except` at lines 159–160 swallows after logging. -/
structure FileEnv where
  tool : ToolResult
  raw : ReadResult
  unlinkFails : Bool
  deriving DecidableEq, Repr

/-- Lines 108–113: the map key — `str(file_path.relative_to(temp_dir))`, or
`file_path.name` when `relative_to` raises `ValueError`. -/
def fileKey (temp_dir fp : FsPath) : String :=
  match relative_to fp temp_dir with
  | some rel => renderPath rel
  | none => pathName fp

/-- Line 151: `any(marker in str(e) for marker in ['binary', 'UnicodeDecodeError'])`
— the heuristic by which an error message is taken to indicate a
binary-content problem. -/
def indicatesBinaryContent (msg : String) : Bool :=
  strContains msg "binary" || strContains msg "UnicodeDecodeError"

/-- Python dict write `m[k] = v`: overwrite in place if the key is present,
else append. -/
def dinsert (m : List (String × String)) (k v : String) : List (String × String) :=
  if m.any (fun p => p.1 == k) then
    m.map (fun p => if p.1 == k then (k, v) else p)
  else m ++ [(k, v)]

/-- Python dict read `m.get(k)`. -/
def dlookup (m : List (String × String)) (k : String) : Option String :=
  (m.find? (fun p => p.1 == k)).map Prod.snd

/-- The body for one file (lines 104–153), updating the `prompts` dict:
tool success reads the output file if it exists, else records stdout
(lines 131–138); tool-not-found falls back to a raw read, skipping on
`UnicodeDecodeError` (lines 139–148); any other exception records an error
string unless its message matches a binary-content marker (lines 149–153). -/
def processFile (temp_dir : FsPath) (env : FileEnv) (fp : FsPath)
    (prompts : List (String × String)) : List (String × String) :=
  let key := fileKey temp_dir fp
  match env.tool with
  | .success stdout outFileContent =>
    match outFileContent with
    | some content => dinsert prompts key content
    | none => dinsert prompts key stdout
  | .failed msg _ =>
    if indicatesBinaryContent msg then prompts
    else dinsert prompts key ("Error processing file: " ++ msg)
  | .notFound =>
    match env.raw with
    | .ok content => dinsert prompts key content
    | .decodeError => prompts
    | .otherError msg =>
      if indicatesBinaryContent msg then prompts
      else dinsert prompts key ("Error processing file: " ++ msg)

/-- Line 117: `output_file = Path(self.temp_dir) / f"{relative_key}.prompt.txt"`. -/
def outputFilePath (temp_dir fp : FsPath) : FsPath :=
  let r := (relative_to fp temp_dir).getD [pathName fp]
  temp_dir ++ r.dropLast ++ [r.getLastD "" ++ ".prompt.txt"]

/-- Whether the transient output file exists when the `finally` block
(lines 154–160) is reached. -/
def outputExistsAfterBody : ToolResult → Bool
  | .notFound => false
  | .failed _ wroteOutput => wroteOutput
  | .success _ outFileContent => outFileContent.isSome

/-- The `finally` block, lines 154–160: `if output_file.exists():` attempt
`output_file.unlink()`.  The unlink itself can raise; the surrounding
`try/except` logs and swallows that failure, in which case the transient
file survives. -/
def outputExistsAfterCleanup (t : ToolResult) (unlinkFails : Bool) : Bool :=
  let existsNow := outputExistsAfterBody t
  if existsNow then
    if unlinkFails then true else false
  else existsNow

/-- The transient output files of one job that still exist after its
`finally` block ran. -/
def transientLeftover (temp_dir : FsPath) (j : FsPath × FileEnv) : List FsPath :=
  if outputExistsAfterCleanup j.2.tool j.2.unlinkFails then
    [outputFilePath temp_dir j.1]
  else []

/-- The `for file_path in file_paths` loop (lines 104–160) threading the
`prompts` dict. -/
def runJobs (temp_dir : FsPath) : List (FsPath × FileEnv) →
    List (String × String) → List (String × String)
  | [], prompts => prompts
  | j :: js, prompts => runJobs temp_dir js (processFile temp_dir j.2 j.1 prompts)

/-- `generate_file_prompts` (lines 93–162): the returned dict, paired with the
transient output files that survive the per-file cleanup. -/
def generate_file_prompts (temp_dir : FsPath) (jobs : List (FsPath × FileEnv)) :
    List (String × String) × List FsPath :=
  (runJobs temp_dir jobs [], (jobs.map (transientLeftover temp_dir)).flatten)

/-! ## `generate_file_tree` (github_analyze.py lines 165–183)

The directory tree is modelled as a rose tree; a directory carries a flag for
whether enumerating its children (`path.iterdir()`) succeeds. -/

/-- A filesystem node: a regular file with its name and `str(item)`, or a
directory with its name, whether `iterdir()` succeeds on it, and its
children. -/
inductive FSNode where
  | file (name abs : String)
  | dir (name : String) (readable : Bool) (children : List FSNode)

/-- A value of the returned dict: `str(item)` for a file, a nested dict for a
directory. -/
inductive TreeVal where
  | leaf (abs : String)
  | branch (entries : List (String × TreeVal))

mutual
/-- The loop body of `_build_tree` for one child (lines 170–178): dot-names
are skipped, a file maps to `str(item)`, a directory recurses and is kept
only when the recursive result is non-empty. -/
def buildChild : FSNode → List (String × TreeVal)
  | .file name abs =>
    if name.startsWith "." then [] else [(name, .leaf abs)]
  | .dir name readable children =>
    if name.startsWith "." then []
    else
      let subtree := if readable then buildChildren children else []
      if subtree.isEmpty then [] else [(name, .branch subtree)]

/-- The `for item in path.iterdir()` loop of `_build_tree`, accumulating the
dict entries in order. -/
def buildChildren : List FSNode → List (String × TreeVal)
  | [] => []
  | c :: cs => buildChild c ++ buildChildren cs
end

/-- `_build_tree` on a directory (lines 167–181): if `iterdir()` raises, the
exception is caught and the partially built dict — still empty — is
returned. -/
def build_tree (readable : Bool) (children : List FSNode) :
    List (String × TreeVal) :=
  if readable then buildChildren children else []

/-- `generate_file_tree` (lines 165–183) on the workspace root. -/
def generate_file_tree (rootReadable : Bool) (rootChildren : List FSNode) :
    List (String × TreeVal) :=
  build_tree rootReadable rootChildren

/-! ## `analyze` (github_analyze.py lines 185–217) -/

/-- The aggregate result dict (lines 207–211). -/
structure AnalysisResult where
  filetree : List (String × TreeVal)
  doc : List (String × String)
  code : List (String × String)

/-- Oracle for one `analyze()` run: outcome of `git clone` (line 35),
outcome of the `rglob` enumeration in `find_files` (whose failure is
re-raised, line 89), the per-file prompt-generation environment, the
workspace root as seen by `generate_file_tree`, and the set of paths whose
removal fails during the final `shutil.rmtree` (empty when the removal
fully succeeds). -/
structure AnalyzeEnv where
  cloneResult : Except String Unit
  rglobResult : Except String (List FsPath)
  fileEnv : FsPath → FileEnv
  rootReadable : Bool
  rootChildren : List FSNode
  rmtreeFailures : List FsPath

/-- `shutil.rmtree(d, ignore_errors=True)` (line 217): attempts to remove
`d` and everything below it.  Removal of an individual path can fail
(permission errors, races); `ignore_errors=True` silently ignores such
failures, so no exception propagates out of the call, the failed path
survives, and so does every ancestor directory of a failed path, a
non-empty directory being unremovable. -/
def rmtree (fs : List FsPath) (d : FsPath) (failures : List FsPath) : List FsPath :=
  fs.filter (fun p => !(d.isPrefixOf p) || failures.any (fun q => p.isPrefixOf q))

/-- The `try` body of `analyze` (lines 192–213): clone, classify, render the
code and doc prompt maps, build the tree, assemble the result; a clone or
traversal failure propagates. -/
def analyzeBody (env : AnalyzeEnv) (temp_dir : FsPath) :
    Except String AnalysisResult :=
  match env.cloneResult with
  | .error m => .error m
  | .ok _ =>
    match env.rglobResult with
    | .error m => .error m
    | .ok entries =>
      let found := find_files temp_dir entries
      let code_prompts :=
        (generate_file_prompts temp_dir (found.1.map fun f => (f, env.fileEnv f))).1
      let doc_prompts :=
        (generate_file_prompts temp_dir (found.2.map fun f => (f, env.fileEnv f))).1
      let file_tree := generate_file_tree env.rootReadable env.rootChildren
      .ok ⟨file_tree, doc_prompts, code_prompts⟩

/-- `analyze` (lines 185–217): run the body, then the `finally` block
`if os.path.exists(self.temp_dir): shutil.rmtree(self.temp_dir,
ignore_errors=True)`.  `fs` is the set of paths existing on the filesystem
when the `finally` block runs; the returned pair is the body's outcome (the
cleanup cannot alter or replace it) and the filesystem afterwards. -/
def analyze (env : AnalyzeEnv) (fs : List FsPath) (temp_dir : FsPath) :
    Except String AnalysisResult × List FsPath :=
  (analyzeBody env temp_dir,
   if temp_dir ∈ fs then rmtree fs temp_dir env.rmtreeFailures else fs)

/-- A file kept in the code bucket: not binary-suffixed, code-suffixed. -/
def codeKeep (rel : FsPath) : Bool :=
  !isBinaryName (pathName rel) && isCodeName (pathName rel)

/-- A file kept in the doc bucket: not binary-suffixed, not code-suffixed,
doc-matching. -/
def docKeep (rel : FsPath) : Bool :=
  !isBinaryName (pathName rel) && !isCodeName (pathName rel) && isDocName (pathName rel)

mutual
/-- No value anywhere inside this tree value is an empty directory mapping. -/
def noEmptyDirVal : TreeVal → Bool
  | .leaf _ => true
  | .branch es => !es.isEmpty && noEmptyDirEntries es

/-- No value of any entry, at any depth, is an empty directory mapping. -/
def noEmptyDirEntries : List (String × TreeVal) → Bool
  | [] => true
  | (_, v) :: es => noEmptyDirVal v && noEmptyDirEntries es
end

/-! ## Helper lemmas -/

/-- The net effect of one iteration of the prompt loop on the dict, read off
from the branches of `processFile`: `none` when the file is skipped, the
stored string otherwise. -/
def promptValue (env : FileEnv) : Option String :=
  match env.tool with
  | .success stdout outFileContent => some (outFileContent.getD stdout)
  | .failed msg _ =>
    if indicatesBinaryContent msg then none
    else some ("Error processing file: " ++ msg)
  | .notFound =>
    match env.raw with
    | .ok content => some content
    | .decodeError => none
    | .otherError msg =>
      if indicatesBinaryContent msg then none
      else some ("Error processing file: " ++ msg)

theorem processFile_eq (td : FsPath) (env : FileEnv) (fp : FsPath)
    (m : List (String × String)) :
    processFile td env fp m =
      match promptValue env with
      | none => m
      | some v => dinsert m (fileKey td fp) v := by
  rcases env with ⟨tool, raw, u⟩
  cases tool with
  | notFound =>
    cases raw with
    | ok content => rfl
    | decodeError => rfl
    | otherError msg =>
      simp only [processFile, promptValue]
      split <;> rfl
  | failed msg wroteOutput =>
    simp only [processFile, promptValue]
    split <;> rfl
  | success stdout outFileContent =>
    cases outFileContent <;> rfl

theorem processFile_none (td : FsPath) (env : FileEnv) (fp : FsPath)
    (m : List (String × String)) (h : promptValue env = none) :
    processFile td env fp m = m := by
  rw [processFile_eq, h]

theorem processFile_some (td : FsPath) (env : FileEnv) (fp : FsPath)
    (m : List (String × String)) (v : String) (h : promptValue env = some v) :
    processFile td env fp m = dinsert m (fileKey td fp) v := by
  rw [processFile_eq, h]

theorem dlookup_replace_self (m : List (String × String)) (k v : String)
    (h : (m.any fun p => p.1 == k) = true) :
    dlookup (m.map fun p => if p.1 == k then (k, v) else p) k = some v := by
  induction m with
  | nil => simp at h
  | cons p t ih =>
    by_cases hp : p.1 = k
    · simp [dlookup, List.find?, hp]
    · have hpb : (p.1 == k) = false := beq_eq_false_iff_ne.mpr hp
      simp only [List.any_cons, hpb, Bool.false_or] at h
      replace ih := ih h
      simp [dlookup, List.find?, hp, hpb] at ih ⊢
      exact ih

theorem dlookup_append_self (m : List (String × String)) (k v : String)
    (h : (m.any fun p => p.1 == k) = false) :
    dlookup (m ++ [(k, v)]) k = some v := by
  induction m with
  | nil => simp [dlookup, List.find?]
  | cons p t ih =>
    simp only [List.any_cons, Bool.or_eq_false_iff] at h
    replace ih := ih h.2
    simp [dlookup, List.find?, h.1] at ih ⊢
    exact ih

theorem dlookup_dinsert_self (m : List (String × String)) (k v : String) :
    dlookup (dinsert m k v) k = some v := by
  unfold dinsert
  split
  next h => exact dlookup_replace_self m k v h
  next h => exact dlookup_append_self m k v (by rwa [Bool.not_eq_true] at h)

theorem dlookup_replace_ne (m : List (String × String)) (k v k' : String)
    (h : k' ≠ k) :
    dlookup (m.map fun p => if p.1 == k then (k, v) else p) k' = dlookup m k' := by
  have hkk' : (k == k') = false := beq_eq_false_iff_ne.mpr fun he => h he.symm
  induction m with
  | nil => rfl
  | cons p t ih =>
    by_cases hp : p.1 = k
    · have hpk' : (p.1 == k') = false := beq_eq_false_iff_ne.mpr (hp ▸ fun he => h he.symm)
      simp [dlookup, List.find?, hp, hkk', hpk'] at ih ⊢
      exact ih
    · have hpb : (p.1 == k) = false := beq_eq_false_iff_ne.mpr hp
      by_cases hp' : p.1 = k'
      · simp [dlookup, List.find?, hpb, hp', h]
      · have hpb' : (p.1 == k') = false := beq_eq_false_iff_ne.mpr hp'
        simp [dlookup, List.find?, hpb, hpb'] at ih ⊢
        exact ih

theorem dlookup_append_ne (m : List (String × String)) (k v k' : String)
    (h : k' ≠ k) :
    dlookup (m ++ [(k, v)]) k' = dlookup m k' := by
  have hkk' : (k == k') = false := beq_eq_false_iff_ne.mpr fun he => h he.symm
  induction m with
  | nil => simp [dlookup, List.find?, hkk']
  | cons p t ih =>
    by_cases hp' : p.1 = k'
    · simp [dlookup, List.find?, hp']
    · have hpb' : (p.1 == k') = false := beq_eq_false_iff_ne.mpr hp'
      simp [dlookup, List.find?, hpb'] at ih ⊢
      exact ih

theorem dlookup_dinsert_ne (m : List (String × String)) (k v k' : String)
    (h : k' ≠ k) :
    dlookup (dinsert m k v) k' = dlookup m k' := by
  unfold dinsert
  split
  next => exact dlookup_replace_ne m k v k' h
  next => exact dlookup_append_ne m k v k' h

theorem dinsert_of_not_mem (m : List (String × String)) (k v : String)
    (h : ∀ p ∈ m, p.1 ≠ k) :
    dinsert m k v = m ++ [(k, v)] := by
  unfold dinsert
  split
  next hany =>
    exfalso
    rcases List.any_eq_true.mp hany with ⟨p, hp, hpk⟩
    exact h p hp (by simpa using hpk)
  next hany => rfl

theorem keys_dinsert_nodup (m : List (String × String)) (k v : String)
    (h : (m.map Prod.fst).Nodup) :
    ((dinsert m k v).map Prod.fst).Nodup := by
  unfold dinsert
  split
  next hany =>
    have hmap : (m.map fun p => if p.1 == k then (k, v) else p).map Prod.fst
        = m.map Prod.fst := by
      simp only [List.map_map]
      refine List.map_congr_left ?_
      intro p _
      by_cases hp : (p.1 == k) = true
      · have : p.1 = k := by simpa using hp
        simp [Function.comp, hp, this]
      · simp [Function.comp, hp]
    rw [hmap]
    exact h
  next hany =>
    have hk : k ∉ m.map Prod.fst := by
      intro hmem
      rcases List.mem_map.mp hmem with ⟨p, hp, hpk⟩
      have : m.any (fun p => p.1 == k) = true :=
        List.any_eq_true.mpr ⟨p, hp, by simpa using hpk⟩
      simp [this] at hany
    rw [List.map_append]
    refine List.Nodup.append h (List.nodup_singleton k) ?_
    intro a ha hb
    have : a = k := by simpa using hb
    exact hk (this ▸ ha)

theorem runJobs_dlookup_not_mem (td : FsPath) (js : List (FsPath × FileEnv))
    (m : List (String × String)) (k : String)
    (h : ∀ j ∈ js, fileKey td j.1 ≠ k) :
    dlookup (runJobs td js m) k = dlookup m k := by
  induction js generalizing m with
  | nil => rfl
  | cons j t ih =>
    have h1 : ∀ x ∈ t, fileKey td x.1 ≠ k :=
      fun x hx => h x (List.mem_cons_of_mem _ hx)
    simp only [runJobs]
    rw [ih (processFile td j.2 j.1 m) h1]
    cases hv : promptValue j.2 with
    | none => rw [processFile_none _ _ _ _ hv]
    | some v =>
      rw [processFile_some _ _ _ _ _ hv]
      exact dlookup_dinsert_ne m _ v k fun he =>
        h j (List.mem_cons_self j t) he.symm

theorem runJobs_dlookup (td : FsPath) (js : List (FsPath × FileEnv))
    (m : List (String × String)) (fp : FsPath) (env : FileEnv)
    (hmem : (fp, env) ∈ js)
    (hkeys : (js.map fun j => fileKey td j.1).Nodup) :
    dlookup (runJobs td js m) (fileKey td fp) =
      match promptValue env with
      | some v => some v
      | none => dlookup m (fileKey td fp) := by
  induction js generalizing m with
  | nil => cases hmem
  | cons j t ih =>
    simp only [List.map_cons, List.nodup_cons] at hkeys
    rcases List.mem_cons.mp hmem with heq | htail
    · subst heq
      have h1 : fileKey td fp ∉ t.map fun j => fileKey td j.1 := hkeys.1
      have hnot : ∀ x ∈ t, fileKey td x.1 ≠ fileKey td fp := by
        intro x hx he
        exact absurd (he ▸ List.mem_map_of_mem (fun j => fileKey td j.1) hx) h1
      simp only [runJobs]
      rw [runJobs_dlookup_not_mem td t _ _ hnot]
      cases hv : promptValue env with
      | none => rw [processFile_none _ _ _ _ hv]
      | some v =>
        rw [processFile_some _ _ _ _ _ hv]
        exact dlookup_dinsert_self m _ v
    · have hjk : fileKey td j.1 ≠ fileKey td fp := by
        intro he
        exact hkeys.1 (he ▸ List.mem_map_of_mem (fun j => fileKey td j.1) htail)
      simp only [runJobs]
      rw [ih _ htail hkeys.2]
      cases promptValue env with
      | some v => rfl
      | none =>
        simp only
        cases hv : promptValue j.2 with
        | none => rw [processFile_none _ _ _ _ hv]
        | some v =>
          rw [processFile_some _ _ _ _ _ hv]
          exact dlookup_dinsert_ne m _ v _ fun he => hjk he.symm

theorem runJobs_keys_nodup (td : FsPath) (js : List (FsPath × FileEnv))
    (m : List (String × String)) (h : (m.map Prod.fst).Nodup) :
    ((runJobs td js m).map Prod.fst).Nodup := by
  induction js generalizing m with
  | nil => exact h
  | cons j t ih =>
    simp only [runJobs]
    refine ih _ ?_
    cases hv : promptValue j.2 with
    | none => rw [processFile_none _ _ _ _ hv]; exact h
    | some v => rw [processFile_some _ _ _ _ _ hv]; exact keys_dinsert_nodup m _ v h

theorem runJobs_length (td : FsPath) (js : List (FsPath × FileEnv))
    (m : List (String × String))
    (hkeys : (js.map fun j => fileKey td j.1).Nodup)
    (hdisj : ∀ j ∈ js, ∀ p ∈ m, p.1 ≠ fileKey td j.1) :
    (runJobs td js m).length =
      m.length + (js.filter fun j => (promptValue j.2).isSome).length := by
  induction js generalizing m with
  | nil => simp [runJobs]
  | cons j t ih =>
    simp only [List.map_cons, List.nodup_cons] at hkeys
    simp only [runJobs, List.filter_cons]
    cases hv : promptValue j.2 with
    | none =>
      rw [processFile_none _ _ _ _ hv]
      simp only [hv, Option.isSome_none, Bool.false_eq_true, if_false]
      exact ih m hkeys.2 fun x hx => hdisj x (List.mem_cons_of_mem _ hx)
    | some v =>
      rw [processFile_some _ _ _ _ _ hv,
        dinsert_of_not_mem m _ v fun p hp =>
          hdisj j (List.mem_cons_self j t) p hp]
      simp only [hv, Option.isSome_some, if_true, List.length_cons]
      rw [ih _ hkeys.2 ?_]
      · simp only [List.length_append, List.length_singleton]
        omega
      · intro x hx p hp
        rcases List.mem_append.mp hp with hp | hp
        · exact hdisj x (List.mem_cons_of_mem _ hx) p hp
        · have hpk : p = (fileKey td j.1, v) := by simpa using hp
          subst hpk
          intro he
          have he' : fileKey td j.1 = fileKey td x.1 := he
          refine hkeys.1 ?_
          rw [he']
          exact List.mem_map_of_mem (fun j => fileKey td j.1) hx

theorem find_files_foldl (td : FsPath) (entries : List FsPath)
    (acc : List FsPath × List FsPath) :
    entries.foldl (classifyStep td) acc =
      (acc.1 ++ (entries.filter codeKeep).map (fun rel => td ++ rel),
       acc.2 ++ (entries.filter docKeep).map (fun rel => td ++ rel)) := by
  induction entries generalizing acc with
  | nil => simp
  | cons e t ih =>
    simp only [List.foldl_cons, List.filter_cons]
    rw [ih]
    unfold classifyStep codeKeep docKeep
    by_cases hb : isBinaryName (pathName e) = true
    · simp [hb]
    · by_cases hc : isCodeName (pathName e) = true
      · simp [hb, hc, List.append_assoc]
      · by_cases hd : isDocName (pathName e) = true
        · simp [hb, hc, hd, List.append_assoc]
        · simp [hb, hc, hd]

theorem find_files_code_eq (td : FsPath) (entries : List FsPath) :
    (find_files td entries).1 =
      (entries.filter codeKeep).map (fun rel => td ++ rel) := by
  unfold find_files
  rw [find_files_foldl]
  simp

theorem find_files_doc_eq (td : FsPath) (entries : List FsPath) :
    (find_files td entries).2 =
      (entries.filter docKeep).map (fun rel => td ++ rel) := by
  unfold find_files
  rw [find_files_foldl]
  simp

/-- Two candidate suffixes of the same string are suffix-comparable, so a
string ending in `d` cannot also end in a shorter, incompatible `e`. -/
theorem endswith_disjoint (n d e : String)
    (hlen : e.toList.length ≤ d.toList.length)
    (hne : ¬ e.toList <:+ d.toList)
    (hd : endswith n d = true) : endswith n e = false := by
  unfold endswith at hd ⊢
  rw [List.isSuffixOf_iff_suffix] at hd
  by_contra h
  rw [Bool.not_eq_false, List.isSuffixOf_iff_suffix] at h
  rcases List.suffix_or_suffix_of_suffix h hd with hs | hs
  · exact hne hs
  · have heq : d.toList = e.toList :=
      hs.eq_of_length (le_antisymm hs.length_le hlen)
    exact hne (heq ▸ List.suffix_refl d.toList)

/-- A filename ending in one of the exact-name doc patterns cannot carry a
binary or code suffix: those suffixes are pairwise incompatible with the
doc names. -/
theorem doc_name_not_binary_code (n d : String)
    (hd : d = "LICENSE" ∨ d = "CONTRIBUTING" ∨ d = "CODE_OF_CONDUCT")
    (h : endswith n d = true) :
    isBinaryName n = false ∧ isCodeName n = false := by
  rcases hd with rfl | rfl | rfl <;>
  · refine ⟨?_, ?_⟩ <;>
    · first
      | rw [isBinaryName, List.any_eq_false]
      | rw [isCodeName, List.any_eq_false]
      intro e he
      rw [Bool.not_eq_true]
      first
      | simp only [binary_patterns] at he
      | simp only [code_patterns] at he
      fin_cases he <;>
        exact endswith_disjoint n _ _ (by decide) (by decide) h

theorem transientLeftover_nil (td : FsPath) (j : FsPath × FileEnv)
    (h : j.2.unlinkFails = false) :
    transientLeftover td j = [] := by
  unfold transientLeftover outputExistsAfterCleanup
  rw [h]
  cases outputExistsAfterBody j.2.tool <;> simp

theorem leftovers_nil (td : FsPath) (jobs : List (FsPath × FileEnv))
    (h : ∀ j ∈ jobs, j.2.unlinkFails = false) :
    (jobs.map (transientLeftover td)).flatten = [] := by
  induction jobs with
  | nil => rfl
  | cons j t ih =>
    simp only [List.map_cons, List.flatten_cons]
    rw [transientLeftover_nil td j (h j (List.mem_cons_self j t)), List.nil_append]
    exact ih fun x hx => h x (List.mem_cons_of_mem _ hx)

theorem noEmptyDirEntries_append (a b : List (String × TreeVal)) :
    noEmptyDirEntries (a ++ b) = (noEmptyDirEntries a && noEmptyDirEntries b) := by
  induction a with
  | nil => simp [noEmptyDirEntries]
  | cons e es ih =>
    rcases e with ⟨name, v⟩
    simp [noEmptyDirEntries, ih, Bool.and_assoc]

mutual
theorem buildChild_noEmpty : (n : FSNode) → noEmptyDirEntries (buildChild n) = true
  | .file name abs => by
    unfold buildChild
    split <;> simp [noEmptyDirEntries, noEmptyDirVal]
  | .dir name r cs => by
    unfold buildChild
    split
    · simp [noEmptyDirEntries]
    · cases r with
      | false => simp [noEmptyDirEntries]
      | true =>
        have h := buildChildren_noEmpty cs
        by_cases he : (buildChildren cs).isEmpty
        · simp [he, noEmptyDirEntries]
        · simp [he, noEmptyDirEntries, noEmptyDirVal, h]

theorem buildChildren_noEmpty : (ns : List FSNode) →
    noEmptyDirEntries (buildChildren ns) = true
  | [] => by simp [buildChildren, noEmptyDirEntries]
  | c :: cs => by
    unfold buildChildren
    rw [noEmptyDirEntries_append, buildChild_noEmpty c, buildChildren_noEmpty cs]
    rfl
end

theorem buildChildren_append (a b : List FSNode) :
    buildChildren (a ++ b) = buildChildren a ++ buildChildren b := by
  induction a with
  | nil => rfl
  | cons c cs ih => simp [buildChildren, ih]

theorem buildChild_unreadable (name : String) (cs : List FSNode) :
    buildChild (FSNode.dir name false cs) = [] := by
  unfold buildChild
  split
  · rfl
  · rfl

theorem isPrefixOf_self (l : FsPath) : l.isPrefixOf l = true := by
  rw [List.isPrefixOf_iff_prefix]

/-! ## Claim theorems -/

/-- C1 counterexample: a run of `analyze()` in which the removal of a file
inside the workspace fails.  `ignore_errors=True` swallows the failure, so
the workspace directory still exists on the filesystem when `analyze()`
finishes, refuting the unconditional claim. -/
theorem analyze_workspace_survival :
    (["ws"] : FsPath) ∈
      (analyze
        ⟨Except.ok (), Except.ok [], fun _ => ⟨.notFound, .ok "", false⟩,
          true, [], [["ws", "locked.bin"]]⟩
        [["ws"], ["ws", "locked.bin"]] ["ws"]).2 := by decide

/-- C1 (amended): on every run of `analyze()` — the success path, a
`clone_repository` failure, and a later pipeline failure alike (the
environment quantifies over all of these) — the `finally` block attempts
recursive removal of the workspace; removal failures are swallowed rather
than propagated and the cleanup never alters the body's outcome, and
whenever no individual removal fails, the workspace temporary directory no
longer exists on the filesystem when `analyze()` finishes. -/
theorem analyze_removes_workspace (env : AnalyzeEnv) (fs : List FsPath)
    (temp_dir : FsPath) (hclean : env.rmtreeFailures = []) :
    temp_dir ∉ (analyze env fs temp_dir).2 ∧
    (analyze env fs temp_dir).1 = analyzeBody env temp_dir := by
  refine ⟨?_, rfl⟩
  unfold analyze
  by_cases h : temp_dir ∈ fs
  · simp only [h, if_true]
    simp [rmtree, List.mem_filter, isPrefixOf_self, hclean]
  · simp [h]

/-- C1 (amended) witness: a successful removal leaves no workspace behind on
a concrete run, with the body's outcome intact. -/
theorem analyze_removes_workspace_witness :
    (["ws"] : FsPath) ∉
      (analyze
        ⟨Except.ok (), Except.ok [], fun _ => ⟨.notFound, .ok "", false⟩,
          true, [], []⟩
        [["ws"], ["ws", "a.py"]] ["ws"]).2 ∧
    (analyze
        ⟨Except.ok (), Except.ok [], fun _ => ⟨.notFound, .ok "", false⟩,
          true, [], []⟩
        [["ws"], ["ws", "a.py"]] ["ws"]).1 =
      analyzeBody
        ⟨Except.ok (), Except.ok [], fun _ => ⟨.notFound, .ok "", false⟩,
          true, [], []⟩
        ["ws"] :=
  analyze_removes_workspace
    ⟨Except.ok (), Except.ok [], fun _ => ⟨.notFound, .ok "", false⟩,
      true, [], []⟩
    [["ws"], ["ws", "a.py"]] ["ws"] rfl

/-- C2: every file whose name ends with a binary-set suffix is excluded from
both the code list and the doc list of `find_files`, at any directory depth,
with no assumption about whether the name also matches a code suffix (the
binary rule runs first and takes precedence). -/
theorem find_files_excludes_binary (temp_dir : FsPath) (entries : List FsPath)
    (rel : FsPath) (hbin : isBinaryName (pathName rel) = true) :
    (temp_dir ++ rel) ∉ (find_files temp_dir entries).1 ∧
    (temp_dir ++ rel) ∉ (find_files temp_dir entries).2 := by
  constructor
  · rw [find_files_code_eq]
    intro hmem
    rcases List.mem_map.mp hmem with ⟨r, hr, he⟩
    have hre : r = rel := List.append_cancel_left he
    subst hre
    have hk := List.of_mem_filter hr
    simp [codeKeep, hbin] at hk
  · rw [find_files_doc_eq]
    intro hmem
    rcases List.mem_map.mp hmem with ⟨r, hr, he⟩
    have hre : r = rel := List.append_cancel_left he
    subst hre
    have hk := List.of_mem_filter hr
    simp [docKeep, hbin] at hk

/-- C2 witness: a concrete binary-suffixed file at depth two is excluded from
both lists. -/
theorem find_files_excludes_binary_witness :
    isBinaryName (pathName ["assets", "lib.py.gz"]) = true ∧
    ((["ws"] ++ ["assets", "lib.py.gz"]) ∉
        (find_files ["ws"] [["assets", "lib.py.gz"], ["src", "main.py"]]).1 ∧
      (["ws"] ++ ["assets", "lib.py.gz"]) ∉
        (find_files ["ws"] [["assets", "lib.py.gz"], ["src", "main.py"]]).2) :=
  ⟨by decide,
   find_files_excludes_binary ["ws"] [["assets", "lib.py.gz"], ["src", "main.py"]]
     ["assets", "lib.py.gz"] (by decide)⟩

/-- C5: the tree returned by `generate_file_tree` never contains an empty
mapping as the value of any directory entry, at any depth. -/
theorem generate_file_tree_no_empty_dir (rootReadable : Bool)
    (rootChildren : List FSNode) :
    noEmptyDirEntries (generate_file_tree rootReadable rootChildren) = true := by
  unfold generate_file_tree build_tree
  cases rootReadable
  · simp [noEmptyDirEntries]
  · simpa using buildChildren_noEmpty rootChildren

/-- C6: a directory whose child enumeration raises contributes an empty
result — no entries at all — and the surrounding tree build proceeds exactly
as if the directory were absent, instead of aborting. -/
theorem generate_file_tree_enum_error_localized (name : String)
    (cs xs ys : List FSNode) :
    buildChild (FSNode.dir name false cs) = [] ∧
    generate_file_tree true (xs ++ FSNode.dir name false cs :: ys) =
      generate_file_tree true (xs ++ ys) := by
  refine ⟨buildChild_unreadable name cs, ?_⟩
  show buildChildren (xs ++ FSNode.dir name false cs :: ys) = buildChildren (xs ++ ys)
  rw [buildChildren_append, buildChildren_append]
  have h1 : buildChildren (FSNode.dir name false cs :: ys) = buildChildren ys := by
    rw [buildChildren, buildChild_unreadable]
    simp
  rw [h1]

/-- C10: `find_files` classifies as documentation any file whose name merely
ends with one of the exact-name patterns LICENSE, CONTRIBUTING or
CODE_OF_CONDUCT, because the suffix test is applied to every member of the
doc set, including the exact-name entries. -/
theorem find_files_doc_suffix_match (temp_dir : FsPath) (entries : List FsPath)
    (rel : FsPath) (d : String)
    (hmem : rel ∈ entries)
    (hd : d = "LICENSE" ∨ d = "CONTRIBUTING" ∨ d = "CODE_OF_CONDUCT")
    (hsuf : endswith (pathName rel) d = true) :
    (temp_dir ++ rel) ∈ (find_files temp_dir entries).2 := by
  rw [find_files_doc_eq]
  refine List.mem_map.mpr ⟨rel, ?_, rfl⟩
  refine List.mem_filter.mpr ⟨hmem, ?_⟩
  obtain ⟨hb, hc⟩ := doc_name_not_binary_code (pathName rel) d hd hsuf
  have hdoc : isDocName (pathName rel) = true := by
    unfold isDocName
    refine List.any_eq_true.mpr ⟨d, ?_, ?_⟩
    · rcases hd with rfl | rfl | rfl <;> decide
    · refine List.any_eq_true.mpr ⟨d, ?_, ?_⟩
      · rcases hd with rfl | rfl | rfl <;> decide
      · simp [hsuf]
  simp [docKeep, hb, hc, hdoc]

/-- C10 witness: the file `MIT-LICENSE`, which ends with but is not equal to
`LICENSE`, lands in the doc list. -/
theorem find_files_doc_suffix_match_witness :
    (["MIT-LICENSE"] : FsPath) ∈ [["MIT-LICENSE"], ["notes.xyz"]] ∧
    endswith (pathName ["MIT-LICENSE"]) "LICENSE" = true ∧
    pathName ["MIT-LICENSE"] ≠ "LICENSE" ∧
    (["ws"] ++ ["MIT-LICENSE"]) ∈
      (find_files ["ws"] [["MIT-LICENSE"], ["notes.xyz"]]).2 :=
  ⟨by decide, by decide, by decide,
   find_files_doc_suffix_match ["ws"] [["MIT-LICENSE"], ["notes.xyz"]]
     ["MIT-LICENSE"] "LICENSE" (by decide) (Or.inl rfl) (by decide)⟩

/-- C3: a file whose processing raises outside the tool-not-found/decode
fallback path — the tool crashing (`failed`), or a non-decode error in the
raw read (`otherError`, e.g. a permission error) — is recorded in the result
map under its key with an error-description string, unless the error message
matches a binary-content marker, in which case no entry is recorded. -/
theorem generate_file_prompts_records_error (temp_dir : FsPath)
    (jobs : List (FsPath × FileEnv)) (fp : FsPath) (env : FileEnv) (msg : String)
    (hkeys : (jobs.map fun j => fileKey temp_dir j.1).Nodup)
    (hmem : (fp, env) ∈ jobs)
    (herr : (∃ w, env.tool = .failed msg w) ∨
      (env.tool = .notFound ∧ env.raw = .otherError msg)) :
    dlookup (generate_file_prompts temp_dir jobs).1 (fileKey temp_dir fp) =
      if indicatesBinaryContent msg then none
      else some ("Error processing file: " ++ msg) := by
  have h := runJobs_dlookup temp_dir jobs [] fp env hmem hkeys
  have hv : promptValue env =
      if indicatesBinaryContent msg then none
      else some ("Error processing file: " ++ msg) := by
    rcases herr with ⟨w, ht⟩ | ⟨ht, hr⟩
    · unfold promptValue
      rw [ht]
    · unfold promptValue
      rw [ht, hr]
  rw [hv] at h
  by_cases hb : indicatesBinaryContent msg = true
  · simp only [hb, if_true] at h ⊢
    exact h
  · simp only [hb, Bool.false_eq_true, if_false] at h ⊢
    exact h

/-- C3 witness: a tool crash whose message has no binary marker is recorded
as an error string; a second file is present to exercise the map. -/
theorem generate_file_prompts_records_error_witness :
    dlookup (generate_file_prompts ["ws"]
        [(["ws", "a.py"], ⟨.failed "boom" false, .ok "raw", false⟩),
         (["ws", "b.py"], ⟨.notFound, .ok "b-text", false⟩)]).1
      (fileKey ["ws"] ["ws", "a.py"]) = some "Error processing file: boom" :=
  (generate_file_prompts_records_error ["ws"]
      [(["ws", "a.py"], ⟨.failed "boom" false, .ok "raw", false⟩),
       (["ws", "b.py"], ⟨.notFound, .ok "b-text", false⟩)]
      ["ws", "a.py"] ⟨.failed "boom" false, .ok "raw", false⟩ "boom"
      (by decide) (by decide) (Or.inl ⟨false, rfl⟩)).trans (by decide)

/-- C4: when the tool is not installed and the file's raw content fails to
decode as UTF-8, the result map has no entry for that file's key, and every
other file is still processed to its own outcome. -/
theorem generate_file_prompts_skips_undecodable (temp_dir : FsPath)
    (jobs : List (FsPath × FileEnv)) (fp : FsPath) (env : FileEnv)
    (hkeys : (jobs.map fun j => fileKey temp_dir j.1).Nodup)
    (hmem : (fp, env) ∈ jobs)
    (htool : env.tool = .notFound) (hraw : env.raw = .decodeError) :
    dlookup (generate_file_prompts temp_dir jobs).1 (fileKey temp_dir fp) = none ∧
    ∀ j ∈ jobs, dlookup (generate_file_prompts temp_dir jobs).1 (fileKey temp_dir j.1)
      = promptValue j.2 := by
  have hall : ∀ j ∈ jobs,
      dlookup (runJobs temp_dir jobs []) (fileKey temp_dir j.1) = promptValue j.2 := by
    intro j hj
    have h := runJobs_dlookup temp_dir jobs [] j.1 j.2 hj hkeys
    cases hv : promptValue j.2 with
    | none => rw [hv] at h; exact h
    | some v => rw [hv] at h; exact h
  refine ⟨?_, hall⟩
  have h := hall (fp, env) hmem
  have hv : promptValue env = none := by
    unfold promptValue
    rw [htool, hraw]
  exact h.trans hv

/-- C4 witness: the undecodable file `bin.py` yields no entry while its
neighbour is still recorded. -/
theorem generate_file_prompts_skips_undecodable_witness :
    dlookup (generate_file_prompts ["ws"]
        [(["ws", "bin.py"], ⟨.notFound, .decodeError, false⟩),
         (["ws", "ok.py"], ⟨.notFound, .ok "text", false⟩)]).1
      (fileKey ["ws"] ["ws", "bin.py"]) = none ∧
    dlookup (generate_file_prompts ["ws"]
        [(["ws", "bin.py"], ⟨.notFound, .decodeError, false⟩),
         (["ws", "ok.py"], ⟨.notFound, .ok "text", false⟩)]).1
      (fileKey ["ws"] ["ws", "ok.py"]) = some "text" := by
  have h := generate_file_prompts_skips_undecodable ["ws"]
    [(["ws", "bin.py"], ⟨.notFound, .decodeError, false⟩),
     (["ws", "ok.py"], ⟨.notFound, .ok "text", false⟩)]
    ["ws", "bin.py"] ⟨.notFound, .decodeError, false⟩
    (by decide) (by decide) rfl rfl
  refine ⟨h.1, ?_⟩
  have h2 := h.2 (["ws", "ok.py"], ⟨.notFound, .ok "text", false⟩) (by decide)
  exact h2.trans (by decide)

/-- C8 counterexample: the tool succeeds and writes its output file, the map
value is the output file's content, yet the `finally`-block unlink fails —
swallowed by the `except` — and the transient output file survives the call,
refuting the unconditional deletion clause. -/
theorem generate_file_prompts_output_survival :
    dlookup (generate_file_prompts ["ws"]
        [(["ws", "a.py"], ⟨.success "out" (some "RENDERED"), .ok "raw", true⟩)]).1
      (fileKey ["ws"] ["ws", "a.py"]) = some "RENDERED" ∧
    (generate_file_prompts ["ws"]
        [(["ws", "a.py"], ⟨.success "out" (some "RENDERED"), .ok "raw", true⟩)]).2
      = [["ws", "a.py.prompt.txt"]] :=
  ⟨by decide, by decide⟩

/-- C8 (amended): when the tool is present, exits successfully and writes
its output file, the map value for the file's key equals the output file's
content exactly; the `finally` block then attempts to delete each transient
output file — deletion failure is logged and swallowed — and whenever no
per-file unlink fails, no transient output file survives
`generate_file_prompts`. -/
theorem generate_file_prompts_tool_output (temp_dir : FsPath)
    (jobs : List (FsPath × FileEnv)) (fp : FsPath) (env : FileEnv)
    (stdout content : String)
    (hkeys : (jobs.map fun j => fileKey temp_dir j.1).Nodup)
    (hmem : (fp, env) ∈ jobs)
    (htool : env.tool = .success stdout (some content))
    (hunlink : ∀ j ∈ jobs, j.2.unlinkFails = false) :
    dlookup (generate_file_prompts temp_dir jobs).1 (fileKey temp_dir fp)
        = some content ∧
    (generate_file_prompts temp_dir jobs).2 = [] := by
  constructor
  · have h := runJobs_dlookup temp_dir jobs [] fp env hmem hkeys
    have hv : promptValue env = some content := by
      unfold promptValue
      rw [htool]
      rfl
    rw [hv] at h
    exact h
  · exact leftovers_nil temp_dir jobs hunlink

/-- C8 (amended) witness: one successful tool run with output-file content
`RENDERED` whose unlink succeeds. -/
theorem generate_file_prompts_tool_output_witness :
    dlookup (generate_file_prompts ["ws"]
        [(["ws", "a.py"], ⟨.success "stdout-text" (some "RENDERED"), .ok "raw", false⟩)]).1
      (fileKey ["ws"] ["ws", "a.py"]) = some "RENDERED" ∧
    (generate_file_prompts ["ws"]
        [(["ws", "a.py"], ⟨.success "stdout-text" (some "RENDERED"), .ok "raw", false⟩)]).2 = [] :=
  generate_file_prompts_tool_output ["ws"]
    [(["ws", "a.py"], ⟨.success "stdout-text" (some "RENDERED"), .ok "raw", false⟩)]
    ["ws", "a.py"] ⟨.success "stdout-text" (some "RENDERED"), .ok "raw", false⟩
    "stdout-text" "RENDERED" (by decide) (by decide) rfl (by decide)

/-- C9: when the tool runs and exits successfully but its expected output
file does not exist afterwards, the captured standard output is recorded as
the file's prompt value. -/
theorem generate_file_prompts_stdout_fallback (temp_dir : FsPath)
    (jobs : List (FsPath × FileEnv)) (fp : FsPath) (env : FileEnv)
    (stdout : String)
    (hkeys : (jobs.map fun j => fileKey temp_dir j.1).Nodup)
    (hmem : (fp, env) ∈ jobs)
    (htool : env.tool = .success stdout none) :
    dlookup (generate_file_prompts temp_dir jobs).1 (fileKey temp_dir fp)
      = some stdout := by
  have h := runJobs_dlookup temp_dir jobs [] fp env hmem hkeys
  have hv : promptValue env = some stdout := by
    unfold promptValue
    rw [htool]
    rfl
  rw [hv] at h
  exact h

/-- C9 witness: tool success with a missing output file records the captured
stdout. -/
theorem generate_file_prompts_stdout_fallback_witness :
    dlookup (generate_file_prompts ["ws"]
        [(["ws", "a.py"], ⟨.success "CAPTURED" none, .ok "raw", false⟩)]).1
      (fileKey ["ws"] ["ws", "a.py"]) = some "CAPTURED" :=
  generate_file_prompts_stdout_fallback ["ws"]
    [(["ws", "a.py"], ⟨.success "CAPTURED" none, .ok "raw", false⟩)]
    ["ws", "a.py"] ⟨.success "CAPTURED" none, .ok "raw", false⟩ "CAPTURED"
    (by decide) (by decide) rfl

/-- C7 counterexample: two distinct input files — one under the workspace,
one outside it whose bare filename coincides — compute the same key `a.py`,
so the second file's entry overwrites the first and the returned map holds a
single entry. -/
theorem generate_file_prompts_key_collision :
    (["ws", "a.py"] : FsPath) ≠ ["other", "a.py"] ∧
    fileKey ["ws"] ["ws", "a.py"] = fileKey ["ws"] ["other", "a.py"] ∧
    (generate_file_prompts ["ws"]
        [(["ws", "a.py"], ⟨.notFound, .ok "first", false⟩),
         (["other", "a.py"], ⟨.notFound, .ok "second", false⟩)]).1
      = [("a.py", "second")] :=
  ⟨by decide, by decide, by decide⟩

/-- C7 (amended): the returned map always has pairwise-distinct keys, and
when the computed keys of the input files are themselves pairwise distinct,
the map holds exactly one entry per recorded file and every file's entry is
its own outcome — no file's entry is overwritten by another's. -/
theorem generate_file_prompts_unique_keys (temp_dir : FsPath)
    (jobs : List (FsPath × FileEnv)) :
    ((generate_file_prompts temp_dir jobs).1.map Prod.fst).Nodup ∧
    ((jobs.map fun j => fileKey temp_dir j.1).Nodup →
      (generate_file_prompts temp_dir jobs).1.length =
        (jobs.filter fun j => (promptValue j.2).isSome).length ∧
      ∀ j ∈ jobs, dlookup (generate_file_prompts temp_dir jobs).1
        (fileKey temp_dir j.1) = promptValue j.2) := by
  refine ⟨runJobs_keys_nodup temp_dir jobs [] (by simp), fun hkeys => ⟨?_, ?_⟩⟩
  · simpa using runJobs_length temp_dir jobs [] hkeys (by simp)
  · intro j hj
    have h := runJobs_dlookup temp_dir jobs [] j.1 j.2 hj hkeys
    cases hv : promptValue j.2 with
    | none => rw [hv] at h; exact h
    | some v => rw [hv] at h; exact h

/-- C7 (amended) witness: two distinct workspace files with distinct keys
each keep their own entry, and the skipped undecodable one contributes
none. -/
theorem generate_file_prompts_unique_keys_witness :
    ((generate_file_prompts ["ws"]
        [(["ws", "a.py"], ⟨.notFound, .ok "x", false⟩),
         (["ws", "b.py"], ⟨.notFound, .decodeError, false⟩)]).1.map Prod.fst).Nodup ∧
    (generate_file_prompts ["ws"]
        [(["ws", "a.py"], ⟨.notFound, .ok "x", false⟩),
         (["ws", "b.py"], ⟨.notFound, .decodeError, false⟩)]).1.length = 1 ∧
    dlookup (generate_file_prompts ["ws"]
        [(["ws", "a.py"], ⟨.notFound, .ok "x", false⟩),
         (["ws", "b.py"], ⟨.notFound, .decodeError, false⟩)]).1
      (fileKey ["ws"] ["ws", "a.py"]) = some "x" := by
  have h := generate_file_prompts_unique_keys ["ws"]
    [(["ws", "a.py"], ⟨.notFound, .ok "x", false⟩),
     (["ws", "b.py"], ⟨.notFound, .decodeError, false⟩)]
  have h2 := h.2 (by decide)
  refine ⟨h.1, h2.1.trans (by decide), ?_⟩
  have h3 := h2.2 (["ws", "a.py"], ⟨.notFound, .ok "x", false⟩) (by decide)
  exact h3.trans (by decide)

end CodeAgent
